import Mathlib

/-!
# Verification of the nixy synchronization pipeline

Shallow embedding of the nixy control-plane bridge (Go, `main` package):
the Marathon state materializer (`syncApps`), the frontend-label grammar
(`frontendExpressions` / `frontendRegexp`), the reload pipeline
(`reload` / `writeConf` / `checkConf` / `reloadNginx`) and the fetcher
(`fetchApps`).  Pure functions are translated directly; the effectful
reload pipeline is modelled by explicit state passing over an environment
that fixes the outcome of each external effect (HTTP, template engine,
filesystem, nginx subprocess).
-/

set_option autoImplicit false

namespace Nixy

/-! ## Data model (Go structs) -/
/-- Go: `Frontend { Type string; Data []string }`. -/
structure Frontend where
  type : String
  data : List String
  deriving DecidableEq

/-- Go: `App { Tasks [][]string; Frontends []Frontend; Labels map[string]string;
Env map[string]string }`.  The string-to-string maps are represented as
association lists. -/
structure App where
  tasks : List (List String)
  frontends : List Frontend
  labels : List (String × String)
  env : List (String × String)
  deriving DecidableEq

/-- One element of `MarathonTasks.Tasks[].HealthCheckResults`: `{ Alive bool }`. -/
structure HealthCheckResult where
  alive : Bool
  deriving DecidableEq

/-- One element of `MarathonTasks.Tasks`.  `Ports` is `[]int64`; int64 values are
modelled as unbounded `Int` (the code never performs arithmetic on them, it only
formats them in base 10). -/
structure MTask where
  appId : String
  healthCheckResults : List HealthCheckResult
  host : String
  id : String := ""
  ports : List Int
  servicePorts : List Int := []
  stagedAt : String := ""
  startedAt : String := ""
  version : String := ""
  deriving DecidableEq

/-- One element of `MarathonApps.Apps`.  `HealthChecks` is `[]interface{}` and the
code only ever takes its length, so its elements are modelled as `Unit`. -/
structure MApp where
  id : String
  labels : List (String × String)
  env : List (String × String)
  healthChecks : List Unit
  deriving DecidableEq

/-- Lookup in a Go `map[string]string` modelled as an association list
(`app.Labels["frontends"]`). -/
def lookupLabel : List (String × String) → String → Option String
  | [], _ => none
  | (k, v) :: rest, key => if k = key then some v else lookupLabel rest key

/-- Lookup in the Go map `config.Apps` (`map[string]App`) modelled as an
association list. -/
def lookupApp : List (String × App) → String → Option App
  | [], _ => none
  | (k, a) :: rest, key => if k = key then some a else lookupApp rest key

/-- Insertion `config.Apps[id] = a` into the association-list model of the Go
map: replace in place if the key is present, otherwise append. -/
def insertApp : List (String × App) → String → App → List (String × App)
  | [], key, v => [(key, v)]
  | (k, a) :: rest, key, v =>
    if k = key then (key, v) :: rest else (k, a) :: insertApp rest key v

/-! ## String helpers

The Go code uses `strings.Split` (single-character separators `/` and `,`),
`regexp.MustCompile("\\s+").Split(s, -1)` and `strconv.FormatInt(p, 10)`.
These are re-implemented over `List Char` so that every use is a computable
structural recursion. -/
/-- Go `strings.Split(s, sep)` for a one-character separator, on the character
list of the string.  `Split("", sep) = [""]`, `Split(",", ",") = ["", ""]`. -/
def splitOnChar (c : Char) : List Char → List (List Char)
  | [] => [[]]
  | x :: xs =>
    let r := splitOnChar c xs
    if x = c then [] :: r
    else
      match r with
      | [] => [[x]]
      | y :: ys => (x :: y) :: ys

/-- The character class `\s` of Go's RE2: `[\t\n\f\r ]`. -/
def isWsChar (c : Char) : Bool :=
  c = ' ' || c = '\t' || c = '\n' || c = '\x0c' || c = '\r'

mutual

/-- Go `regexp.MustCompile("\\s+").Split(s, -1)`: split at maximal runs of
whitespace, keeping empty pieces at the borders (`Split(" a") = ["", "a"]`,
`Split("") = [""]`).  `acc` is the reversed current piece. -/
def splitWsAux : List Char → List Char → List String
  | [], acc => [String.mk acc.reverse]
  | c :: cs, acc =>
    if isWsChar c then
      String.mk acc.reverse :: splitWsSkip cs
    else
      splitWsAux cs (c :: acc)

/-- Consumes the rest of a whitespace run (the `+` of `\s+`) after `splitWsAux`
has emitted a piece. -/
def splitWsSkip : List Char → List String
  | [] => [""]
  | c :: cs =>
    if isWsChar c then splitWsSkip cs
    else splitWsAux cs [c]

end

/-- `spaceRegexp.Split(frontendsLabel, -1)` where
`spaceRegexp = regexp.MustCompile("\\s+")`. -/
def splitWs (s : String) : List String :=
  splitWsAux s.data []

/-- `task.Host + ":" + strconv.FormatInt(port, 10)`. -/
def hostPort (host : String) (port : Int) : String :=
  host ++ ":" ++ toString port

/-! ## The frontend grammar (`frontendExpressions` / `frontendRegexp`)

```
var frontendExpressions = []string{
  "^[0-9a-z-]+(,[0-9a-z-]+)*/http$",
  "^[0-9a-z-]+(,[0-9a-z-]+)*/http-public$",
  "^[a-z.-]+(,[a-z.-]+)*/partner$",
  "^[0-9a-z-]+(,[0-9a-z-]+)*/shop-dev$",
  "^[a-z.-]+(,[a-z.-]+)*/shop$",
  "^[0-9]+(,[0-9]+)*/tcp$",
}
var frontendRegexp = regexp.MustCompile(strings.Join(frontendExpressions, "|"))
```

Each alternative is anchored (`^…$`), contains exactly one literal `/` and its
character classes exclude `/`, so a string matches the joined regexp iff it
splits on `/` into exactly two pieces `names/type` where `type` is one of the
six type words and `names` is a nonempty comma-separated list of nonempty
words over the type's alphabet. -/
/-- The class `[0-9a-z-]` (alternatives `http`, `http-public`, `shop-dev`). -/
def isHttpChar (c : Char) : Bool :=
  ('0' ≤ c && c ≤ '9') || ('a' ≤ c && c ≤ 'z') || c = '-'

/-- The class `[a-z.-]` (alternatives `partner`, `shop`). -/
def isPartnerChar (c : Char) : Bool :=
  ('a' ≤ c && c ≤ 'z') || c = '.' || c = '-'

/-- The class `[0-9]` (alternative `tcp`). -/
def isTcpChar (c : Char) : Bool :=
  '0' ≤ c && c ≤ '9'

/-- `[cls]+(,[cls]+)*`: a nonempty comma-separated sequence of nonempty words
over the class `cls`. -/
def namesOk (cls : Char → Bool) (names : List Char) : Bool :=
  (splitOnChar ',' names).all fun part => !part.isEmpty && part.all cls

/-- `frontendRegexp.MatchString frontend`. -/
def frontendMatch (frontend : String) : Bool :=
  match splitOnChar '/' frontend.data with
  | [names, ty] =>
    if ty = "http".data || ty = "http-public".data || ty = "shop-dev".data then
      namesOk isHttpChar names
    else if ty = "partner".data || ty = "shop".data then
      namesOk isPartnerChar names
    else if ty = "tcp".data then
      namesOk isTcpChar names
    else false
  | _ => false

/-- The parsing of one recognised token:
```
frontendDataAndType := strings.Split(frontend, "/")
frontendType := frontendDataAndType[1]
frontendData := strings.Split(frontendDataAndType[0], ",")
```
(only reached when `frontendRegexp.MatchString(frontend)` holds, in which case
the split has exactly two parts). -/
def mkFrontend (frontend : String) : Frontend :=
  let parts := splitOnChar '/' frontend.data
  { type := String.mk (parts.getD 1 []),
    data := (splitOnChar ',' (parts.getD 0 [])).map String.mk }

/-- The synthetic frontend for an unrecognized token. -/
def errFrontend (frontend : String) : Frontend :=
  { type := "error", data := ["frontend " ++ frontend ++ " not recognized"] }

/-- The synthetic frontend for too many tokens. -/
def errMoreFrontends : Frontend :=
  { type := "error", data := ["more frontends defined than ports exposed"] }

/-- The token loop of `syncApps`:
```
for _, frontend := range frontends {
  if frontendRegexp.MatchString(frontend) {
    newapp.Frontends = append(newapp.Frontends, Frontend{…})
  } else {
    newapp.Frontends = []Frontend{ Frontend{Type:"error", Data:[…]} }
    break
  }
}
```
`acc` is the `newapp.Frontends` accumulated so far; a malformed token replaces
the whole list and stops the loop. -/
def parseTokensAux (acc : List Frontend) : List String → List Frontend
  | [] => acc
  | f :: rest =>
    if frontendMatch f then parseTokensAux (acc ++ [mkFrontend f]) rest
    else [errFrontend f]

/-! ## `syncApps` -/
/-- The `continue` chain that decides whether a task contributes to an app:
```
if task.AppId != app.Id { continue }
if len(task.Ports) == 0 { continue }
if len(app.HealthChecks) > 0 {
  if len(task.HealthCheckResults) == 0 { continue }
  alive := true
  for _, health := range task.HealthCheckResults {
    if health.Alive == false { alive = false }
  }
  if alive != true { continue }
}
```
The `alive` fold is `List.all (·.alive)`. -/
def contributes (app : MApp) (task : MTask) : Bool :=
  if task.appId ≠ app.id then false
  else if task.ports.length = 0 then false
  else if app.healthChecks.length > 0 then
    if task.healthCheckResults.length = 0 then false
    else task.healthCheckResults.all (·.alive)
  else true

/-- The slot-append loop of the `ok` branch:
```
for index, port := range task.Ports {
  a.Tasks[index] = append(a.Tasks[index], task.Host + ":" + strconv.FormatInt(port, 10))
}
```
Go panics with "index out of range" when `index >= len(a.Tasks)`; that panic is
modelled as `none`. -/
def updateSlots (host : String) :
    List (List String) → List Int → Nat → Option (List (List String))
  | slots, [], _ => some slots
  | slots, p :: ps, i =>
    if i < slots.length then
      updateSlots host (slots.set i (slots.getD i [] ++ [hostPort host p])) ps (i + 1)
    else none

/-- The `else` branch of `syncApps` that seeds a fresh `App` from the first
contributing task: one slot per task port, then the `frontends` label of the
app definition is parsed against that task's port count. -/
def newApp (app : MApp) (task : MTask) : App :=
  let base : App :=
    { tasks := task.ports.map fun p => [hostPort task.host p]
      frontends := []
      labels := app.labels
      env := app.env }
  match lookupLabel app.labels "frontends" with
  | none => base
  | some frontendsLabel =>
    let frontends := splitWs frontendsLabel
    if frontends.length ≤ task.ports.length then
      { base with frontends := parseTokensAux [] frontends }
    else
      { base with frontends := [errMoreFrontends] }

/-- The inner task loop of `syncApps` for one `app`, threading the `config.Apps`
map.  `none` models the index-out-of-range panic of the slot-append loop. -/
def syncAppTasks (app : MApp) :
    List MTask → List (String × App) → Option (List (String × App))
  | [], m => some m
  | t :: ts, m =>
    if contributes app t then
      match lookupApp m app.id with
      | some a =>
        match updateSlots t.host a.tasks t.ports 0 with
        | some slots => syncAppTasks app ts (insertApp m app.id { a with tasks := slots })
        | none => none
      | none => syncAppTasks app ts (insertApp m app.id (newApp app t))
    else syncAppTasks app ts m

/-- The outer app loop of `syncApps`. -/
def syncAppsAux : List MApp → List MTask → List (String × App) → Option (List (String × App))
  | [], _, m => some m
  | a :: as, tasks, m =>
    match syncAppTasks a tasks m with
    | some m' => syncAppsAux as tasks m'
    | none => none

/-- `syncApps(jsontasks, jsonapps)`: rebuilds `config.Apps` from scratch
(`config.Apps = make(map[string]App)`), iterating apps in the outer loop and
tasks in the inner loop.  Result `none` models a Go index-out-of-range panic
in the slot-append loop. -/
def syncApps (tasks : List MTask) (apps : List MApp) : Option (List (String × App)) :=
  syncAppsAux apps tasks []

/-! ## The per-app join `appJoin`

`syncAppTasks` interleaves the task join with map reads and writes, but all of
them are at the single key `app.Id`.  `appJoin` is the same loop acting on the
`Option App` accumulator directly; `syncAppTasks_eq` proves the two views
equal, which lets every per-app property be proved by induction on the task
list alone. -/
/-- The body of `syncAppTasks` acting directly on the entry at `app.Id`
(`none` = key absent). The outer `Option` models the index-out-of-range
panic. -/
def appJoin (app : MApp) : List MTask → Option App → Option (Option App)
  | [], acc => some acc
  | t :: ts, acc =>
    if contributes app t then
      match acc with
      | some a =>
        match updateSlots t.host a.tasks t.ports 0 with
        | some slots => appJoin app ts (some { a with tasks := slots })
        | none => none
      | none => appJoin app ts (some (newApp app t))
    else appJoin app ts acc

/-! ## The reload pipeline (`reload` / `writeConf` / `checkConf` / `reloadNginx`)

The pipeline is effectful: it talks to Marathon, runs the template engine,
creates and renames files and shells out to nginx.  It is modelled by explicit
state passing: `RState` is the part of the world the pipeline reads and
writes (the bytes on disk at `config.Nginx_config`, `config.Apps`,
`config.LastUpdates`, and an abstract strictly-monotone clock backing
`time.Now()`), and `REnv` fixes the outcome of every external effect of one
attempt.  `checkConf` (`nginx -c <path> -t`) succeeding is `validateErr =
false`; `reloadNginx` (`nginx -s reload`) succeeding is `reloadErr = false`.
`os.Rename` either atomically replaces the target with the temp file's
contents or fails leaving the target untouched. -/
/-- Go: `Updates { LastSync, LastConfigRendered, LastConfigValid,
LastNginxReload time.Time }`; instants are modelled as `Nat` clock readings. -/
structure Updates where
  lastSync : Nat
  lastConfigRendered : Nat
  lastConfigValid : Nat
  lastNginxReload : Nat
  deriving DecidableEq

/-- The mutable world of one reload attempt. -/
structure RState where
  nginxConfig : String
  apps : List (String × App)
  lastUpdates : Updates
  now : Nat
  deriving DecidableEq

/-- Outcomes of the external effects of one reload attempt. -/
structure REnv where
  tasks : List MTask
  apps : List MApp
  fetchErr : Bool
  parseErr : Bool
  execErr : Bool
  rendered : String
  validateErr : Bool
  renameErr : Bool
  reloadErr : Bool
  deriving DecidableEq

/-- The failure points of `writeConf`. -/
inductive WErr
  | parse
  | exec
  | validate
  | rename
  deriving DecidableEq

/-- `writeConf()`:
```
template, err := template.New(...).ParseFiles(config.Nginx_template)
if err != nil { return err }
tmpFile, err := ioutil.TempFile("", "nixy")   // note: err is not checked
defer tmpFile.Close()
err = template.Execute(tmpFile, config)
if err != nil { return err }
config.LastUpdates.LastConfigRendered = time.Now()
err = checkConf(tmpFile.Name())
if err != nil { return err }                  // temp file is not removed
err = os.Rename(tmpFile.Name(), config.Nginx_config)
if err != nil { return err }
return nil
```
-/
def writeConf (e : REnv) (s : RState) : RState × Option WErr :=
  if e.parseErr then (s, some WErr.parse)
  else if e.execErr then (s, some WErr.exec)
  else
    let s₁ : RState :=
      { s with
        now := s.now + 1
        lastUpdates := { s.lastUpdates with lastConfigRendered := s.now + 1 } }
    if e.validateErr then (s₁, some WErr.validate)
    else if e.renameErr then (s₁, some WErr.rename)
    else ({ s₁ with nginxConfig := e.rendered }, none)

/-- Outcome of one reload attempt: success, the stage that failed, or the
index-out-of-range panic inside `syncApps`. -/
inductive RResult
  | ok
  | errFetch
  | errParse
  | errExec
  | errValidate
  | errRename
  | errReload
  | panicSync
  deriving DecidableEq

/-- `reload()`:
```
err := fetchApps(&jsontasks, &jsonapps)
if err != nil { return err }
syncApps(&jsontasks, &jsonapps)
config.LastUpdates.LastSync = time.Now()
err = writeConf()
if err != nil { return err }
config.LastUpdates.LastConfigValid = time.Now()
err = reloadNginx()
if err != nil { return err }
config.LastUpdates.LastNginxReload = time.Now()
return nil
```
-/
def reload (e : REnv) (s : RState) : RState × RResult :=
  if e.fetchErr then (s, RResult.errFetch)
  else
    match syncApps e.tasks e.apps with
    | none => (s, RResult.panicSync)
    | some apps' =>
      let s₁ : RState := { s with apps := apps' }
      let s₂ : RState :=
        { s₁ with
          now := s₁.now + 1
          lastUpdates := { s₁.lastUpdates with lastSync := s₁.now + 1 } }
      match writeConf e s₂ with
      | (s₃, some WErr.parse) => (s₃, RResult.errParse)
      | (s₃, some WErr.exec) => (s₃, RResult.errExec)
      | (s₃, some WErr.validate) => (s₃, RResult.errValidate)
      | (s₃, some WErr.rename) => (s₃, RResult.errRename)
      | (s₃, none) =>
        let s₄ : RState :=
          { s₃ with
            now := s₃.now + 1
            lastUpdates := { s₃.lastUpdates with lastConfigValid := s₃.now + 1 } }
        if e.reloadErr then (s₄, RResult.errReload)
        else
          ({ s₄ with
              now := s₄.now + 1
              lastUpdates := { s₄.lastUpdates with lastNginxReload := s₄.now + 1 } },
            RResult.ok)

/-! ## Temp-file location (`ioutil.TempFile("", "nixy")`) -/
/-- Go `os.TempDir()` on Unix defaults to `/tmp` (modelled). -/
def osTempDir : String := "/tmp"

/-- Go `ioutil.TempFile(dir, pattern)`: the file is created in `dir`, or in
`os.TempDir()` when `dir` is the empty string. -/
def tempFileDir (dir : String) : String :=
  if dir = "" then osTempDir else dir

/-- The directory in which `writeConf` creates its temp file.  The source
passes the literal empty string: `ioutil.TempFile("", "nixy")`, whatever path
`config.Nginx_config` holds. -/
def writeConfTempDir (nginxConfigPath : String) : String :=
  tempFileDir ""

/-- Join path components with `/` (inverse of `splitOnChar '/'` on clean
paths). -/
def joinSlash : List (List Char) → List Char
  | [] => []
  | [x] => x
  | x :: xs => x ++ '/' :: joinSlash xs

/-- `filepath.Dir` for the clean absolute paths used here: everything before
the final `/`. -/
def dirOf (p : String) : String :=
  String.mk (joinSlash ((splitOnChar '/' p.data).dropLast))

/-! ## The fetcher (`fetchApps`) -/
/-- Go: `EndpointStatus { Endpoint string; Healthy bool; Message string }`. -/
structure EndpointStatus where
  endpoint : String
  healthy : Bool
  message : String
  deriving DecidableEq

/-- The endpoint-selection loop at the top of `fetchApps` (also used by
`eventStream`):
```
var endpoint string
for _, es := range health.Endpoints {
  if es.Healthy == true { endpoint = es.Endpoint; break }
}
```
-/
def selectEndpoint (eps : List EndpointStatus) : String :=
  match eps.find? (fun es => es.healthy) with
  | some es => es.endpoint
  | none => ""

/-- Outcomes of one `fetchApps` call: the annotated endpoint list and the
errors (if any) the two decoder goroutines send on `taskschn` / `appschn`. -/
structure FetchEnv where
  endpoints : List EndpointStatus
  tasksErr : Option String
  appsErr : Option String
  deriving DecidableEq

/-- `fetchApps(&jsontasks, &jsonapps)` reduced to its error behaviour:
```
if endpoint == "" { return errors.New("all endpoints are down") }
go func() { … taskschn <- err/nil … }()
go func() { … appschn <- err/nil … }()
appserr := <-appschn
taskserr := <-taskschn
if appserr != nil { return appserr }
if taskserr != nil { return taskserr }
return nil
```
Both channel receives happen before any return, and `appserr` is examined
first. -/
def fetchApps (e : FetchEnv) : Option String :=
  if selectEndpoint e.endpoints = "" then some "all endpoints are down"
  else
    match e.appsErr with
    | some err => some err
    | none =>
      match e.tasksErr with
      | some err => some err
      | none => none

/-! ## Concrete fixtures (inputs of the spec's end-to-end scenarios) -/
/-- The happy-path app `/web` with label `frontends: "example.com/http"`, no
health checks. -/
def webApp : MApp :=
  { id := "/web", labels := [("frontends", "example.com/http")], env := [],
    healthChecks := [] }

/-- Happy-path task `hostA:31001` (one port). -/
def taskA : MTask :=
  { appId := "/web", healthCheckResults := [], host := "hostA", ports := [31001] }

/-- Happy-path task `hostB:31002` (one port). -/
def taskB : MTask :=
  { appId := "/web", healthCheckResults := [], host := "hostB", ports := [31002] }

/-- The map entry the spec's happy-path scenario claims for `/web`. -/
def claimedWebApp : App :=
  { tasks := [["hostA:31001", "hostB:31002"]],
    frontends := [{ type := "http", data := ["example.com"] }],
    labels := [("frontends", "example.com/http")],
    env := [] }

/-- The entry `syncApps` actually produces for `/web`: the token
`example.com/http` is rejected because `.` is outside the `http` name
alphabet `[0-9a-z-]`. -/
def actualWebApp : App :=
  { tasks := [["hostA:31001", "hostB:31002"]],
    frontends := [errFrontend "example.com/http"],
    labels := [("frontends", "example.com/http")],
    env := [] }

/-- App used by the malformed-frontend scenario, with the label
`frontends: "GOOD.com/http bogus"`. -/
def badLabelApp : MApp :=
  { id := "/m", labels := [("frontends", "GOOD.com/http bogus")], env := [],
    healthChecks := [] }

/-- Two-port task of the malformed-frontend scenario (so that the two label
tokens are within the port budget). -/
def badLabelTask : MTask :=
  { appId := "/m", healthCheckResults := [], host := "h", ports := [31001, 31002] }

/-- The entry `syncApps` produces for `/m`: already the first token
`GOOD.com/http` is rejected (uppercase letters and `.` are outside
`[0-9a-z-]`), so its error sentinel replaces the list. -/
def badLabelOut : App :=
  { tasks := [["h:31001"], ["h:31002"]],
    frontends := [errFrontend "GOOD.com/http"],
    labels := [("frontends", "GOOD.com/http bogus")],
    env := [] }

/-- App `/a` without labels or health checks, used by the unequal-port-count
scenarios. -/
def plainApp : MApp :=
  { id := "/a", labels := [], env := [], healthChecks := [] }

/-- First contributing task of the unequal-port-count scenario: two ports. -/
def twoPortTask : MTask :=
  { appId := "/a", healthCheckResults := [], host := "h1", ports := [80, 81] }

/-- Second contributing task of the unequal-port-count scenario: one port. -/
def onePortTask : MTask :=
  { appId := "/a", healthCheckResults := [], host := "h2", ports := [90] }

/-- The entry produced when `twoPortTask` then `onePortTask` contribute:
slot lengths 2 and 1. -/
def raggedOut : App :=
  { tasks := [["h1:80", "h2:90"], ["h1:81"]], frontends := [], labels := [],
    env := [] }

/-- First contributing task of the panic scenario: one port. -/
def panicTask1 : MTask :=
  { appId := "/a", healthCheckResults := [], host := "h1", ports := [80] }

/-- Second contributing task of the panic scenario: two ports, so slot index 1
is out of range. -/
def panicTask2 : MTask :=
  { appId := "/a", healthCheckResults := [], host := "h2", ports := [90, 91] }

/-- A healthy Marathon endpoint annotation. -/
def healthyEndpoint : EndpointStatus :=
  { endpoint := "http://marathon-1:8080", healthy := true, message := "OK" }

/-- Reload environment in which every external effect succeeds and rendering
produces `"new"`. -/
def allOkEnv : REnv :=
  { tasks := [], apps := [], fetchErr := false, parseErr := false,
    execErr := false, rendered := "new", validateErr := false,
    renameErr := false, reloadErr := false }

/-- Initial reload state: `"old"` on disk, zeroed stamps, clock at 0. -/
def st0 : RState :=
  { nginxConfig := "old", apps := [], lastUpdates := ⟨0, 0, 0, 0⟩, now := 0 }

/-! ## Association-list lemmas for the `config.Apps` map model -/
theorem lookupApp_insertApp_self (m : List (String × App)) (k : String) (v : App) :
    lookupApp (insertApp m k v) k = some v := by
  induction m with
  | nil => simp [insertApp, lookupApp]
  | cons p rest ih =>
    obtain ⟨k₀, a₀⟩ := p
    by_cases h : k₀ = k <;> simp [insertApp, lookupApp, h, ih]

theorem lookupApp_insertApp_ne (m : List (String × App)) (k k' : String) (v : App)
    (h : k' ≠ k) : lookupApp (insertApp m k v) k' = lookupApp m k' := by
  have hne : ¬(k = k') := fun h' => h h'.symm
  induction m with
  | nil => simp only [insertApp, lookupApp, if_neg hne]
  | cons p rest ih =>
    obtain ⟨k₀, a₀⟩ := p
    by_cases hk : k₀ = k
    · subst hk
      simp only [insertApp, if_pos rfl, lookupApp, if_neg hne]
    · simp only [insertApp, if_neg hk, lookupApp]
      by_cases hk' : k₀ = k' <;> simp [hk', ih]

theorem insertApp_insertApp (m : List (String × App)) (k : String) (v w : App) :
    insertApp (insertApp m k v) k w = insertApp m k w := by
  induction m with
  | nil => simp [insertApp]
  | cons p rest ih =>
    obtain ⟨k₀, a₀⟩ := p
    by_cases h : k₀ = k <;> simp [insertApp, h, ih]

theorem insertApp_lookup_self (m : List (String × App)) (k : String) (b : App)
    (h : lookupApp m k = some b) : insertApp m k b = m := by
  induction m with
  | nil => simp [lookupApp] at h
  | cons p rest ih =>
    obtain ⟨k₀, a₀⟩ := p
    by_cases hk : k₀ = k
    · subst hk
      simp [lookupApp] at h
      simp [insertApp, h]
    · simp [lookupApp, hk] at h
      simp [insertApp, hk, ih h]

theorem appJoin_some (app : MApp) :
    ∀ (ts : List MTask) (a : App) (acc' : Option App),
      appJoin app ts (some a) = some acc' → ∃ b, acc' = some b := by
  intro ts
  induction ts with
  | nil =>
    intro a acc' h
    simp [appJoin] at h
    exact ⟨a, h.symm⟩
  | cons t ts ih =>
    intro a acc' h
    simp only [appJoin] at h
    split at h
    · cases hu : updateSlots t.host a.tasks t.ports 0 with
      | none => rw [hu] at h; simp at h
      | some slots => rw [hu] at h; exact ih _ _ h
    · exact ih _ _ h

theorem syncAppTasks_eq (app : MApp) :
    ∀ (ts : List MTask) (m : List (String × App)),
      syncAppTasks app ts m = (appJoin app ts (lookupApp m app.id)).map fun acc =>
        match acc with
        | some b => insertApp m app.id b
        | none => m := by
  intro ts
  induction ts with
  | nil =>
    intro m
    simp only [syncAppTasks, appJoin, Option.map_some]
    cases h : lookupApp m app.id with
    | none => simp
    | some b => simp [insertApp_lookup_self m app.id b h]
  | cons t ts ih =>
    intro m
    by_cases hc : contributes app t
    · simp only [syncAppTasks, appJoin, if_pos hc]
      cases hl : lookupApp m app.id with
      | none =>
        simp only [hl]
        rw [ih (insertApp m app.id (newApp app t)),
          lookupApp_insertApp_self m app.id (newApp app t)]
        cases hj : appJoin app ts (some (newApp app t)) with
        | none => simp
        | some acc' =>
          obtain ⟨b, rfl⟩ := appJoin_some app ts _ acc' hj
          simp [insertApp_insertApp]
      | some a =>
        simp only [hl]
        cases hu : updateSlots t.host a.tasks t.ports 0 with
        | none => simp
        | some slots =>
          simp only []
          rw [ih (insertApp m app.id { a with tasks := slots }),
            lookupApp_insertApp_self m app.id { a with tasks := slots }]
          cases hj : appJoin app ts (some { a with tasks := slots }) with
          | none => simp
          | some acc' =>
            obtain ⟨b, rfl⟩ := appJoin_some app ts _ acc' hj
            simp [insertApp_insertApp]
    · simp only [syncAppTasks, appJoin, if_neg hc]
      exact ih m

/-- Processing one app only writes the key `app.Id`. -/
theorem lookupApp_syncAppTasks_ne (app : MApp) (ts : List MTask)
    (m m' : List (String × App)) (k : String) (hk : k ≠ app.id)
    (h : syncAppTasks app ts m = some m') : lookupApp m' k = lookupApp m k := by
  rw [syncAppTasks_eq] at h
  cases hj : appJoin app ts (lookupApp m app.id) with
  | none => rw [hj] at h; simp at h
  | some acc =>
    rw [hj] at h
    simp only [Option.map_some', Option.some.injEq] at h
    cases acc with
    | none => simp [← h]
    | some b => rw [← h]; exact lookupApp_insertApp_ne m app.id k b hk

/-- The outer app loop leaves keys of unprocessed ids untouched. -/
theorem lookupApp_syncAppsAux_notin (tasks : List MTask) :
    ∀ (as : List MApp) (m m' : List (String × App)) (k : String),
      k ∉ as.map MApp.id → syncAppsAux as tasks m = some m' →
      lookupApp m' k = lookupApp m k := by
  intro as
  induction as with
  | nil =>
    intro m m' k _ h
    simp only [syncAppsAux, Option.some.injEq] at h
    rw [h]
  | cons a as ih =>
    intro m m' k hk h
    simp only [List.map_cons, List.mem_cons, not_or] at hk
    simp only [syncAppsAux] at h
    cases h1 : syncAppTasks a tasks m with
    | none => rw [h1] at h; simp at h
    | some m1 =>
      rw [h1] at h
      rw [ih m1 m' k hk.2 h, lookupApp_syncAppTasks_ne a tasks m m1 k hk.1 h1]

/-- Under distinct app ids, the final map entry of `app` is exactly the per-app
join of the task list starting from an absent key. -/
theorem lookupApp_syncApps (tasks : List MTask) (apps : List MApp)
    (m : List (String × App)) (app : MApp)
    (hmem : app ∈ apps) (hnd : (apps.map MApp.id).Nodup)
    (hm : syncApps tasks apps = some m) :
    ∃ acc, appJoin app tasks none = some acc ∧ lookupApp m app.id = acc := by
  unfold syncApps at hm
  suffices h : ∀ (as : List MApp) (m₀ : List (String × App)),
      (as.map MApp.id).Nodup → app ∈ as → lookupApp m₀ app.id = none →
      syncAppsAux as tasks m₀ = some m →
      ∃ acc, appJoin app tasks none = some acc ∧ lookupApp m app.id = acc by
    exact h apps [] hnd hmem rfl hm
  intro as
  induction as with
  | nil => intro m₀ _ hmem' _ _; simp at hmem'
  | cons a as ih =>
    intro m₀ hnd' hmem' h0 hx
    simp only [List.map_cons, List.nodup_cons] at hnd'
    simp only [syncAppsAux] at hx
    cases h1 : syncAppTasks a tasks m₀ with
    | none => rw [h1] at hx; simp at hx
    | some m1 =>
      rw [h1] at hx
      rcases List.mem_cons.mp hmem' with rfl | hmem''
      · -- `app` is the app being processed first
        rw [syncAppTasks_eq] at h1
        rw [h0] at h1
        cases hj : appJoin app tasks none with
        | none => rw [hj] at h1; simp at h1
        | some acc =>
          refine ⟨acc, rfl, ?_⟩
          rw [hj] at h1
          simp only [Option.map_some', Option.some.injEq] at h1
          have hrest : lookupApp m app.id = lookupApp m1 app.id := by
            refine lookupApp_syncAppsAux_notin tasks as m1 m app.id ?_ hx
            exact hnd'.1
          rw [hrest, ← h1]
          cases acc with
          | none => exact h0
          | some b => exact lookupApp_insertApp_self m₀ app.id b
      · -- `app` comes later in the list
        have hne : app.id ≠ a.id := by
          intro he
          exact hnd'.1 (he ▸ List.mem_map_of_mem MApp.id hmem'')
        have h0' : lookupApp m1 app.id = none := by
          rw [lookupApp_syncAppTasks_ne a tasks m₀ m1 app.id hne h1, h0]
        exact ih m1 hnd'.2 hmem'' h0' hx

/-! ## Properties of the slot-append loop `updateSlots` -/
theorem getD_set_self {α : Type} (l : List α) (i : Nat) (a d : α) (h : i < l.length) :
    (l.set i a).getD i d = a := by
  simp [List.getD, List.getElem?_set, h]

theorem getD_set_ne {α : Type} (l : List α) (i j : Nat) (a : α) (d : α) (h : i ≠ j) :
    (l.set i a).getD j d = l.getD j d := by
  simp [List.getD, List.getElem?_set, h]

/-- A successful `updateSlots` keeps the number of slots, appends the task's
`host:port` for port index `j - i` to every slot in the written window
`[i, i + len ports)` and leaves all other slots unchanged. -/
theorem updateSlots_getD (host : String) :
    ∀ (ports : List Int) (slots : List (List String)) (i : Nat)
      (slots' : List (List String)),
      updateSlots host slots ports i = some slots' →
      slots'.length = slots.length ∧
      ∀ j, slots'.getD j [] =
        if i ≤ j ∧ j < i + ports.length
        then slots.getD j [] ++ [hostPort host (ports.getD (j - i) 0)]
        else slots.getD j [] := by
  intro ports
  induction ports with
  | nil =>
    intro slots i slots' h
    simp only [updateSlots, Option.some.injEq] at h
    subst h
    refine ⟨rfl, fun j => ?_⟩
    rw [if_neg (by simp only [List.length_nil]; omega)]
  | cons p ps ih =>
    intro slots i slots' h
    simp only [updateSlots] at h
    split at h
    case isFalse => simp at h
    case isTrue hi =>
      obtain ⟨hlen, hget⟩ := ih _ _ _ h
      rw [List.length_set] at hlen
      refine ⟨hlen, fun j => ?_⟩
      rw [hget j]
      by_cases hji : j = i
      · subst hji
        rw [if_neg (by omega), if_pos (by simp only [List.length_cons]; omega)]
        rw [getD_set_self slots j _ [] hi]
        simp [List.getD, Nat.sub_self]
      · by_cases hjw : i + 1 ≤ j ∧ j < i + 1 + ps.length
        · rw [if_pos hjw, if_pos (by simp only [List.length_cons]; omega)]
          rw [getD_set_ne slots i j _ [] (Ne.symm hji)]
          have harith : j - i = (j - (i + 1)) + 1 := by omega
          rw [harith]
          simp [List.getD]
        · rw [if_neg hjw, if_neg (by simp only [List.length_cons]; omega)]
          rw [getD_set_ne slots i j _ [] (Ne.symm hji)]

/-- A successful `updateSlots` with a nonempty port list implies the whole
window was in bounds. -/
theorem updateSlots_bound (host : String) :
    ∀ (ports : List Int) (slots : List (List String)) (i : Nat)
      (slots' : List (List String)),
      updateSlots host slots ports i = some slots' → ports ≠ [] →
      i + ports.length ≤ slots.length := by
  intro ports
  induction ports with
  | nil => intro _ _ _ _ hne; exact absurd rfl hne
  | cons p ps ih =>
    intro slots i slots' h _
    simp only [updateSlots] at h
    split at h
    case isFalse => simp at h
    case isTrue hi =>
      rcases List.eq_nil_or_concat ps with rfl | ⟨_, _, rfl⟩
      · simpa using hi
      · have := ih _ _ _ h (by simp)
        rw [List.length_set] at this
        simp at this ⊢
        omega

/-- `updateSlots` succeeds whenever the whole window is in bounds (the Go loop
cannot panic if the task has at most as many ports as there are slots). -/
theorem updateSlots_total (host : String) :
    ∀ (ports : List Int) (slots : List (List String)) (i : Nat),
      i + ports.length ≤ slots.length →
      ∃ slots', updateSlots host slots ports i = some slots' := by
  intro ports
  induction ports with
  | nil => intro slots i _; exact ⟨slots, rfl⟩
  | cons p ps ih =>
    intro slots i hb
    simp only [List.length_cons] at hb
    have hi : i < slots.length := by omega
    obtain ⟨slots', h⟩ :=
      ih (slots.set i (slots.getD i [] ++ [hostPort host p])) (i + 1)
        (by rw [List.length_set]; omega)
    exact ⟨slots', by simp only [updateSlots, if_pos hi]; exact h⟩

/-- Membership in a list of slots, rephrased by slot index. -/
theorem mem_slots_iff (L : List (List String)) (s : String) :
    (∃ slot ∈ L, s ∈ slot) ↔ ∃ j, j < L.length ∧ s ∈ L.getD j [] := by
  constructor
  · rintro ⟨slot, hsl, hs⟩
    obtain ⟨j, hj, rfl⟩ := List.mem_iff_getElem.mp hsl
    exact ⟨j, hj, by rw [List.getD_eq_getElem L [] hj]; exact hs⟩
  · rintro ⟨j, hj, hs⟩
    refine ⟨L.getD j [], ?_, hs⟩
    rw [List.getD_eq_getElem L [] hj]
    exact List.getElem_mem hj

/-- The strings present in the slots after a successful `updateSlots` are the
old ones plus one `host:port` per port of the appended task. -/
theorem updateSlots_mem (host : String) (ports : List Int)
    (slots slots' : List (List String))
    (h : updateSlots host slots ports 0 = some slots') (s : String) :
    (∃ slot ∈ slots', s ∈ slot) ↔
      (∃ slot ∈ slots, s ∈ slot) ∨ s ∈ ports.map (hostPort host) := by
  obtain ⟨hlen, hget⟩ := updateSlots_getD host ports slots 0 slots' h
  rw [mem_slots_iff, mem_slots_iff, hlen]
  constructor
  · rintro ⟨j, hj, hs⟩
    rw [hget j] at hs
    by_cases hw : 0 ≤ j ∧ j < 0 + ports.length
    · rw [if_pos hw] at hs
      rcases List.mem_append.mp hs with h1 | h2
      · exact Or.inl ⟨j, hj, h1⟩
      · right
        rw [List.mem_singleton] at h2
        rw [List.mem_map]
        have hjp : j < ports.length := by omega
        refine ⟨ports.getD j 0, ?_, ?_⟩
        · rw [List.getD_eq_getElem ports 0 hjp]
          exact List.getElem_mem hjp
        · rw [h2]; simp
    · rw [if_neg hw] at hs
      exact Or.inl ⟨j, hj, hs⟩
  · rintro (⟨j, hj, hs⟩ | hs)
    · refine ⟨j, hj, ?_⟩
      rw [hget j]
      split
      · exact List.mem_append_left _ hs
      · exact hs
    · rw [List.mem_map] at hs
      obtain ⟨p, hp, rfl⟩ := hs
      obtain ⟨k, hk, rfl⟩ := List.mem_iff_getElem.mp hp
      have hkb : k < slots.length := by
        have hb := updateSlots_bound host ports slots 0 slots' h
          (by intro he; rw [he] at hk; simp at hk)
        omega
      refine ⟨k, hkb, ?_⟩
      rw [hget k, if_pos ⟨Nat.zero_le k, by omega⟩]
      apply List.mem_append_right
      rw [List.mem_singleton, Nat.sub_zero, List.getD_eq_getElem ports 0 hk]

/-! ## Properties of `newApp` and `appJoin` -/
theorem newApp_tasks (app : MApp) (t : MTask) :
    (newApp app t).tasks = t.ports.map fun p => [hostPort t.host p] := by
  unfold newApp
  cases lookupLabel app.labels "frontends" with
  | none => rfl
  | some lbl => dsimp only; split <;> rfl

theorem newApp_labels (app : MApp) (t : MTask) : (newApp app t).labels = app.labels := by
  unfold newApp
  cases lookupLabel app.labels "frontends" with
  | none => rfl
  | some lbl => dsimp only; split <;> rfl

theorem newApp_env (app : MApp) (t : MTask) : (newApp app t).env = app.env := by
  unfold newApp
  cases lookupLabel app.labels "frontends" with
  | none => rfl
  | some lbl => dsimp only; split <;> rfl

/-- When the app carries a `frontends` label, the fresh app's frontend list is
determined by the token count versus the first contributing task's port
count. -/
theorem newApp_frontends_some (app : MApp) (t : MTask) (lbl : String)
    (h : lookupLabel app.labels "frontends" = some lbl) :
    (newApp app t).frontends =
      if (splitWs lbl).length ≤ t.ports.length
      then parseTokensAux [] (splitWs lbl)
      else [errMoreFrontends] := by
  unfold newApp
  rw [h]
  dsimp only
  split <;> simp_all

/-- The strings a fresh app's slots hold are exactly the seeding task's
`host:port` values. -/
theorem newApp_mem (app : MApp) (t : MTask) (s : String) :
    (∃ slot ∈ (newApp app t).tasks, s ∈ slot) ↔ s ∈ t.ports.map (hostPort t.host) := by
  rw [newApp_tasks]
  constructor
  · rintro ⟨slot, hsl, hs⟩
    rw [List.mem_map] at hsl
    obtain ⟨p, hp, rfl⟩ := hsl
    rw [List.mem_singleton] at hs
    rw [List.mem_map]
    exact ⟨p, hp, hs.symm⟩
  · intro hs
    rw [List.mem_map] at hs
    obtain ⟨p, hp, rfl⟩ := hs
    exact ⟨[hostPort t.host p], List.mem_map_of_mem _ hp, List.mem_singleton.mpr rfl⟩

/-- The slot-append branch never touches `Frontends`, `Labels`, `Env` or the
number of slots. -/
theorem appJoin_fields (app : MApp) :
    ∀ (ts : List MTask) (a b : App), appJoin app ts (some a) = some (some b) →
      b.frontends = a.frontends ∧ b.labels = a.labels ∧ b.env = a.env ∧
      b.tasks.length = a.tasks.length := by
  intro ts
  induction ts with
  | nil =>
    intro a b h
    simp only [appJoin, Option.some.injEq] at h
    subst h
    exact ⟨rfl, rfl, rfl, rfl⟩
  | cons t ts ih =>
    intro a b h
    simp only [appJoin] at h
    split at h
    · cases hu : updateSlots t.host a.tasks t.ports 0 with
      | none => rw [hu] at h; simp at h
      | some slots =>
        rw [hu] at h
        obtain ⟨h1, h2, h3, h4⟩ := ih _ _ h
        refine ⟨h1, h2, h3, ?_⟩
        rw [h4]
        exact (updateSlots_getD t.host t.ports a.tasks 0 slots hu).1
    · exact ih _ _ h

/-- Characterization of the entry built from an absent key: either no task
contributes and no entry is created, or the entry descends from
`newApp app ft` where `ft` is the first contributing task. -/
theorem appJoin_none_char (app : MApp) :
    ∀ (ts : List MTask) (acc' : Option App), appJoin app ts none = some acc' →
      (ts.find? (fun t => contributes app t) = none ∧ acc' = none) ∨
      (∃ ft, ts.find? (fun t => contributes app t) = some ft ∧
        ∃ b, acc' = some b ∧ b.frontends = (newApp app ft).frontends ∧
          b.labels = app.labels ∧ b.env = app.env ∧
          b.tasks.length = ft.ports.length) := by
  intro ts
  induction ts with
  | nil =>
    intro acc' h
    simp only [appJoin, Option.some.injEq] at h
    exact Or.inl ⟨rfl, h.symm⟩
  | cons t ts ih =>
    intro acc' h
    simp only [appJoin] at h
    by_cases hc : contributes app t
    · rw [if_pos hc] at h
      right
      refine ⟨t, List.find?_cons_of_pos ts hc, ?_⟩
      obtain ⟨b, rfl⟩ := appJoin_some app ts (newApp app t) acc' h
      obtain ⟨h1, h2, h3, h4⟩ := appJoin_fields app ts (newApp app t) b h
      refine ⟨b, rfl, h1, ?_, ?_, ?_⟩
      · rw [h2, newApp_labels]
      · rw [h3, newApp_env]
      · rw [h4, newApp_tasks, List.length_map]
    · rw [if_neg hc] at h
      rw [List.find?_cons_of_neg ts (by simpa using hc)]
      exact ih acc' h

/-- Membership in the final slots of an entry: exactly the strings already
present plus one `host:port` per port of each contributing task. -/
theorem appJoin_mem (app : MApp) :
    ∀ (ts : List MTask) (acc acc' : Option App), appJoin app ts acc = some acc' →
      ∀ s : String,
        ((∃ b, acc' = some b ∧ ∃ slot ∈ b.tasks, s ∈ slot) ↔
          (∃ a, acc = some a ∧ ∃ slot ∈ a.tasks, s ∈ slot) ∨
          ∃ t ∈ ts, contributes app t = true ∧ s ∈ t.ports.map (hostPort t.host)) := by
  intro ts
  induction ts with
  | nil =>
    intro acc acc' h s
    simp only [appJoin, Option.some.injEq] at h
    subst h
    simp
  | cons t ts ih =>
    intro acc acc' h s
    simp only [appJoin] at h
    by_cases hc : contributes app t
    · rw [if_pos hc] at h
      cases acc with
      | some a =>
        dsimp only at h
        cases hu : updateSlots t.host a.tasks t.ports 0 with
        | none => rw [hu] at h; simp at h
        | some slots =>
          rw [hu] at h
          rw [ih _ _ h s]
          have hmem := updateSlots_mem t.host t.ports a.tasks slots hu s
          simp only [Option.some.injEq, List.mem_cons]
          constructor
          · rintro (⟨a', ha', hs⟩ | ⟨t', ht', hct', hs⟩)
            · rcases hmem.mp (by rw [← ha'] at hs; exact hs) with h1 | h2
              · exact Or.inl ⟨a, rfl, h1⟩
              · exact Or.inr ⟨t, Or.inl rfl, hc, h2⟩
            · exact Or.inr ⟨t', Or.inr ht', hct', hs⟩
          · rintro (⟨a', ha', hs⟩ | ⟨t', ht' | ht', hct', hs⟩)
            · left
              refine ⟨_, rfl, hmem.mpr (Or.inl ?_)⟩
              subst ha'
              exact hs
            · left
              subst ht'
              exact ⟨_, rfl, hmem.mpr (Or.inr hs)⟩
            · exact Or.inr ⟨t', ht', hct', hs⟩
      | none =>
        dsimp only at h
        rw [ih _ _ h s]
        simp only [Option.some.injEq, List.mem_cons]
        constructor
        · rintro (⟨a', ha', hs⟩ | ⟨t', ht', hct', hs⟩)
          · subst ha'
            exact Or.inr ⟨t, Or.inl rfl, hc, (newApp_mem app t s).mp hs⟩
          · exact Or.inr ⟨t', Or.inr ht', hct', hs⟩
        · rintro (⟨a', ha', hs⟩ | ⟨t', ht' | ht', hct', hs⟩)
          · exact absurd ha' (by simp)
          · rw [ht'] at hs
            exact Or.inl ⟨newApp app t, rfl, (newApp_mem app t s).mpr hs⟩
          · exact Or.inr ⟨t', ht', hct', hs⟩
    · rw [if_neg hc] at h
      rw [ih _ _ h s]
      simp only [List.mem_cons]
      constructor
      · rintro (h1 | ⟨t', ht', hct', hs⟩)
        · exact Or.inl h1
        · exact Or.inr ⟨t', Or.inr ht', hct', hs⟩
      · rintro (h1 | ⟨t', ht' | ht', hct', hs⟩)
        · exact Or.inl h1
        · subst ht'
          exact absurd hct' (by simpa using hc)
        · exact Or.inr ⟨t', ht', hct', hs⟩

/-- When every contributing task has exactly as many ports as there are slots,
the join keeps all slots of one entry at a common length. -/
theorem appJoin_uniform (app : MApp) :
    ∀ (ts : List MTask) (a : App) (c : Nat) (acc' : Option App),
      (∀ sl ∈ a.tasks, sl.length = c) →
      (∀ t ∈ ts, contributes app t = true → t.ports.length = a.tasks.length) →
      appJoin app ts (some a) = some acc' →
      ∃ b c', acc' = some b ∧ c ≤ c' ∧ b.tasks.length = a.tasks.length ∧
        ∀ sl ∈ b.tasks, sl.length = c' := by
  intro ts
  induction ts with
  | nil =>
    intro a c acc' hc _ h
    simp only [appJoin, Option.some.injEq] at h
    exact ⟨a, c, h.symm, le_refl c, rfl, hc⟩
  | cons t ts ih =>
    intro a c acc' hc hports h
    simp only [appJoin] at h
    by_cases hcon : contributes app t
    · rw [if_pos hcon] at h
      cases hu : updateSlots t.host a.tasks t.ports 0 with
      | none => rw [hu] at h; simp at h
      | some slots =>
        rw [hu] at h
        obtain ⟨hlen, hget⟩ := updateSlots_getD t.host t.ports a.tasks 0 slots hu
        have hpl : t.ports.length = a.tasks.length :=
          hports t (List.mem_cons_self t ts) hcon
        have hslots : ∀ sl ∈ slots, sl.length = c + 1 := by
          intro sl hsl
          obtain ⟨j, hj, rfl⟩ := List.mem_iff_getElem.mp hsl
          rw [← List.getD_eq_getElem slots [] hj]
          rw [hget j, if_pos ⟨Nat.zero_le j, by omega⟩]
          rw [List.length_append, List.length_singleton]
          have hjb : j < a.tasks.length := by omega
          rw [hc (a.tasks.getD j []) (by
            rw [List.getD_eq_getElem a.tasks [] hjb]
            exact List.getElem_mem hjb)]
        obtain ⟨b, c', hb, hcc, hblen, hbsl⟩ :=
          ih { a with tasks := slots } (c + 1) acc' hslots
            (by intro t' ht' hct'; rw [hports t' (List.mem_cons_of_mem t ht') hct']; exact hlen.symm) h
        exact ⟨b, c', hb, by omega, by rw [hblen]; exact hlen, hbsl⟩
    · rw [if_neg hcon] at h
      exact ih a c acc' hc (fun t' ht' => hports t' (List.mem_cons_of_mem t ht')) h

/-- Starting from an absent key, under the equal-port-count precondition, the
entry ends with one slot per port of the first contributing task and all slots
of a common length `≥ 1`. -/
theorem appJoin_none_uniform (app : MApp) :
    ∀ (ts : List MTask) (acc' : Option App) (ft : MTask),
      ts.find? (fun t => contributes app t) = some ft →
      (∀ t ∈ ts, contributes app t = true → t.ports.length = ft.ports.length) →
      appJoin app ts none = some acc' →
      ∃ b, acc' = some b ∧ b.tasks.length = ft.ports.length ∧
        ∃ c', 1 ≤ c' ∧ ∀ sl ∈ b.tasks, sl.length = c' := by
  intro ts
  induction ts with
  | nil => intro acc' ft hft; simp at hft
  | cons t ts ih =>
    intro acc' ft hft hports h
    simp only [appJoin] at h
    by_cases hcon : contributes app t
    · rw [if_pos hcon] at h
      rw [List.find?_cons_of_pos ts hcon, Option.some.injEq] at hft
      subst hft
      have h1 : ∀ sl ∈ (newApp app t).tasks, sl.length = 1 := by
        intro sl hsl
        rw [newApp_tasks] at hsl
        rw [List.mem_map] at hsl
        obtain ⟨p, _, rfl⟩ := hsl
        rfl
      have h2 : ∀ t' ∈ ts, contributes app t' = true →
          t'.ports.length = (newApp app t).tasks.length := by
        intro t' ht' hct'
        rw [newApp_tasks, List.length_map]
        exact hports t' (List.mem_cons_of_mem t ht') hct'
      obtain ⟨b, c', hb, hcc, hblen, hbsl⟩ := appJoin_uniform app ts (newApp app t) 1 acc' h1 h2 h
      refine ⟨b, hb, ?_, c', hcc, hbsl⟩
      rw [hblen, newApp_tasks, List.length_map]
    · rw [if_neg hcon] at h
      rw [List.find?_cons_of_neg ts (by simpa using hcon)] at hft
      exact ih acc' ft hft (fun t' ht' => hports t' (List.mem_cons_of_mem t ht')) h

/-- Under the equal-port-count precondition the join never hits the
out-of-range index (starting from an existing entry). -/
theorem appJoin_total_some (app : MApp) :
    ∀ (ts : List MTask) (a : App) (n : Nat), a.tasks.length = n →
      (∀ t ∈ ts, contributes app t = true → t.ports.length = n) →
      ∃ b, appJoin app ts (some a) = some (some b) := by
  intro ts
  induction ts with
  | nil => intro a n _ _; exact ⟨a, rfl⟩
  | cons t ts ih =>
    intro a n hn hports
    by_cases hcon : contributes app t
    · have hpl : t.ports.length = n := hports t (List.mem_cons_self t ts) hcon
      obtain ⟨slots, hu⟩ := updateSlots_total t.host t.ports a.tasks 0 (by omega)
      have hlen : slots.length = a.tasks.length := (updateSlots_getD t.host t.ports a.tasks 0 slots hu).1
      obtain ⟨b, hb⟩ := ih { a with tasks := slots } n (by rw [hlen]; exact hn)
        (fun t' ht' => hports t' (List.mem_cons_of_mem t ht'))
      refine ⟨b, ?_⟩
      simp only [appJoin, if_pos hcon, hu]
      exact hb
    · obtain ⟨b, hb⟩ := ih a n hn (fun t' ht' => hports t' (List.mem_cons_of_mem t ht'))
      refine ⟨b, ?_⟩
      simp only [appJoin, if_neg hcon]
      exact hb

/-- Under the equal-port-count precondition the join never panics starting from
an absent key. -/
theorem appJoin_total_none (app : MApp) :
    ∀ (ts : List MTask),
      (∀ ft, ts.find? (fun t => contributes app t) = some ft →
        ∀ t ∈ ts, contributes app t = true → t.ports.length = ft.ports.length) →
      ∃ acc', appJoin app ts none = some acc' := by
  intro ts
  induction ts with
  | nil => intro _; exact ⟨none, rfl⟩
  | cons t ts ih =>
    intro hpre
    by_cases hcon : contributes app t
    · have hfind : (t :: ts).find? (fun t => contributes app t) = some t :=
        List.find?_cons_of_pos ts hcon
      have hports : ∀ t' ∈ ts, contributes app t' = true →
          t'.ports.length = (newApp app t).tasks.length := by
        intro t' ht' hct'
        rw [newApp_tasks, List.length_map]
        exact hpre t hfind t' (List.mem_cons_of_mem t ht') hct'
      obtain ⟨b, hb⟩ := appJoin_total_some app ts (newApp app t)
        (newApp app t).tasks.length rfl hports
      refine ⟨some b, ?_⟩
      simp only [appJoin, if_pos hcon]
      exact hb
    · obtain ⟨acc', hacc⟩ := ih (by
        intro ft hft t' ht' hct'
        refine hpre ft ?_ t' (List.mem_cons_of_mem t ht') hct'
        rw [List.find?_cons_of_neg ts (by simpa using hcon)]
        exact hft)
      refine ⟨acc', ?_⟩
      simp only [appJoin, if_neg hcon]
      exact hacc

/-- The materializer is total (no index-out-of-range panic) when, per app,
every contributing task exposes exactly as many ports as the first
contributing task, provided app ids are distinct. -/
theorem syncApps_total (tasks : List MTask) (apps : List MApp)
    (hnd : (apps.map MApp.id).Nodup)
    (hpre : ∀ app ∈ apps, ∀ ft, tasks.find? (fun t => contributes app t) = some ft →
      ∀ t ∈ tasks, contributes app t = true → t.ports.length = ft.ports.length) :
    ∃ m, syncApps tasks apps = some m := by
  unfold syncApps
  suffices h : ∀ (as : List MApp) (m₀ : List (String × App)),
      (as.map MApp.id).Nodup →
      (∀ app ∈ as, lookupApp m₀ app.id = none) →
      (∀ app ∈ as, ∀ ft, tasks.find? (fun t => contributes app t) = some ft →
        ∀ t ∈ tasks, contributes app t = true → t.ports.length = ft.ports.length) →
      ∃ m, syncAppsAux as tasks m₀ = some m by
    exact h apps [] hnd (fun _ _ => rfl) hpre
  intro as
  induction as with
  | nil => intro m₀ _ _ _; exact ⟨m₀, rfl⟩
  | cons a as ih =>
    intro m₀ hnd' h0 hpre'
    simp only [List.map_cons, List.nodup_cons] at hnd'
    obtain ⟨acc, hacc⟩ := appJoin_total_none a tasks (hpre' a (List.mem_cons_self a as))
    have h1 : syncAppTasks a tasks m₀ =
        (appJoin a tasks (lookupApp m₀ a.id)).map fun acc =>
          match acc with
          | some b => insertApp m₀ a.id b
          | none => m₀ := syncAppTasks_eq a tasks m₀
    rw [h0 a (List.mem_cons_self a as), hacc] at h1
    cases acc with
    | none =>
      obtain ⟨m, hm⟩ := ih m₀ hnd'.2
        (fun app hmem => h0 app (List.mem_cons_of_mem a hmem))
        (fun app hmem => hpre' app (List.mem_cons_of_mem a hmem))
      refine ⟨m, ?_⟩
      simp only [syncAppsAux, h1, Option.map_some']
      exact hm
    | some b =>
      obtain ⟨m, hm⟩ := ih (insertApp m₀ a.id b) hnd'.2 (by
        intro app hmem
        have hne : app.id ≠ a.id := by
          intro he
          exact hnd'.1 (he ▸ List.mem_map_of_mem MApp.id hmem)
        rw [lookupApp_insertApp_ne m₀ a.id app.id b hne]
        exact h0 app (List.mem_cons_of_mem a hmem))
        (fun app hmem => hpre' app (List.mem_cons_of_mem a hmem))
      refine ⟨m, ?_⟩
      simp only [syncAppsAux, h1, Option.map_some']
      exact hm

/-! ## The token loop on a first malformed token -/
/-- Whatever has been accumulated, the first malformed token replaces the
entire frontend list with its error sentinel and stops the loop. -/
theorem parseTokensAux_bad (bad : String) (hbad : frontendMatch bad = false) :
    ∀ (pre post : List String) (acc : List Frontend),
      (∀ f ∈ pre, frontendMatch f = true) →
      parseTokensAux acc (pre ++ bad :: post) = [errFrontend bad] := by
  intro pre
  induction pre with
  | nil =>
    intro post acc _
    simp only [List.nil_append, parseTokensAux, hbad]
    simp
  | cons f fs ih =>
    intro post acc hpre
    have hf : frontendMatch f = true := hpre f (List.mem_cons_self f fs)
    simp only [List.cons_append, parseTokensAux, hf, if_pos]
    exact ih post _ (fun g hg => hpre g (List.mem_cons_of_mem f hg))

/-- When every token is recognised the loop appends one parsed frontend per
token, in order. -/
theorem parseTokensAux_ok :
    ∀ (fs : List String) (acc : List Frontend),
      (∀ f ∈ fs, frontendMatch f = true) →
      parseTokensAux acc fs = acc ++ fs.map mkFrontend := by
  intro fs
  induction fs with
  | nil => intro acc _; simp [parseTokensAux]
  | cons f fs ih =>
    intro acc hok
    have hf : frontendMatch f = true := hok f (List.mem_cons_self f fs)
    simp only [parseTokensAux, hf, if_pos]
    rw [ih _ (fun g hg => hok g (List.mem_cons_of_mem f hg))]
    simp

/-- The `continue` chain of `syncApps` spelled out: a task contributes iff its
`appId` matches, it exposes at least one port, and, when the app declares
health checks, it has at least one health result and all of them are alive. -/
theorem contributes_iff (app : MApp) (t : MTask) :
    contributes app t = true ↔
      (t.appId = app.id ∧ t.ports ≠ [] ∧
        (app.healthChecks ≠ [] →
          t.healthCheckResults ≠ [] ∧ ∀ h ∈ t.healthCheckResults, h.alive = true)) := by
  unfold contributes
  by_cases h1 : t.appId = app.id
  · by_cases h2 : t.ports.length = 0
    · simp [h1, h2, List.length_eq_zero.mp h2]
    · have h2' : t.ports ≠ [] := by
        intro he; rw [he] at h2; exact h2 rfl
      by_cases h3 : app.healthChecks.length > 0
      · have h3' : app.healthChecks ≠ [] := by
          intro he; rw [he] at h3; simp at h3
        by_cases h4 : t.healthCheckResults.length = 0
        · simp [h1, h2, h3, h4, h2', h3', List.length_eq_zero.mp h4]
        · have h4' : t.healthCheckResults ≠ [] := by
            intro he; rw [he] at h4; exact h4 rfl
          simp [h1, h2, h3, h4, h2', h3', h4', List.all_eq_true]
      · have h3' : app.healthChecks = [] := List.length_eq_zero.mp (by omega)
        simp [h1, h2, h3, h2', h3']
  · simp [h1]

/-- C5: on the spec's happy-path input, `syncApps` does not produce the
claimed map: the token `example.com/http` fails the `http` grammar (its name
alphabet `[0-9a-z-]` has no `.`), so the frontend list is the error sentinel,
not `[{type:"http", data:["example.com"]}]`. -/
theorem C5_happy_path_counterexample :
    syncApps [taskA, taskB] [webApp] ≠ some [("/web", claimedWebApp)] := by decide

/-- C5 (amended): on the happy-path input, `syncApps` produces exactly the
map `{"/web" ↦ {tasks:[["hostA:31001","hostB:31002"]],
frontends:[{type:"error", data:["frontend example.com/http not recognized"]}]}}`
(labels and env copied verbatim). -/
theorem C5_happy_path_actual :
    syncApps [taskA, taskB] [webApp] = some [("/web", actualWebApp)] := by decide

/-- C4: the equal-slot-length invariant fails without a precondition on port
counts: with contributing tasks of 2 and 1 ports, the resulting slots have
lengths 2 and 1, and the slot count 2 differs from the second contributing
task's port count 1. -/
theorem C4_counterexample :
    syncApps [twoPortTask, onePortTask] [plainApp] = some [("/a", raggedOut)] ∧
    raggedOut.tasks.map List.length = [2, 1] ∧
    (¬ ∀ s₁ ∈ raggedOut.tasks, ∀ s₂ ∈ raggedOut.tasks, s₁.length = s₂.length) ∧
    contributes plainApp onePortTask = true ∧
    raggedOut.tasks.length = 2 ∧ onePortTask.ports.length = 1 := by decide

/-- C10: the slot-append indexing `a.Tasks[index]` stays in bounds — and
`syncApps` is total — whenever every contributing task of an app exposes
exactly as many ports as the app's first contributing task (given distinct app
ids); and on an input whose second contributing task exposes more ports than
the first, the index is out of range (modelled as `none`). -/
theorem C10_slot_index_safety :
    (∀ (tasks : List MTask) (apps : List MApp),
      (apps.map MApp.id).Nodup →
      (∀ app ∈ apps, ∀ ft, tasks.find? (fun t => contributes app t) = some ft →
        ∀ t ∈ tasks, contributes app t = true → t.ports.length = ft.ports.length) →
      ∃ m, syncApps tasks apps = some m) ∧
    syncApps [panicTask1, panicTask2] [plainApp] = none :=
  ⟨fun tasks apps hnd hpre => syncApps_total tasks apps hnd hpre, by decide⟩

/-- C10 (witness): the totality half applied to the concrete happy-path
input, whose contributing tasks all expose one port. -/
theorem C10_witness : ∃ m, syncApps [taskA, taskB] [webApp] = some m :=
  C10_slot_index_safety.1 [taskA, taskB] [webApp] (by decide) (by decide)

/-- C8: the claim that the temp file lives next to `nginx_config` is false:
`writeConf` passes the empty-string directory to `ioutil.TempFile`, so for
`nginx_config = "/etc/nginx/nginx.conf"` the temp file is created in the OS
default temp directory `/tmp`, which is neither the config's directory nor a
sibling of it. -/
theorem C8_counterexample :
    writeConfTempDir "/etc/nginx/nginx.conf" = "/tmp" ∧
    dirOf "/etc/nginx/nginx.conf" = "/etc/nginx" ∧
    ("/tmp" : String) ≠ "/etc/nginx" ∧
    dirOf "/tmp" ≠ dirOf "/etc/nginx" := by decide

/-- C8 (amended): the render phase creates its temp file via
`ioutil.TempFile("", "nixy")`, i.e. always in the OS default temp directory,
independent of where `nginx_config` points. -/
theorem C8_tempdir_is_os_default (nginxConfigPath : String) :
    writeConfTempDir nginxConfigPath = osTempDir := rfl

/-- C9: when both sub-requests fail, `fetchApps` reports the apps error, not
the tasks error: `appserr` is examined before `taskserr`. -/
theorem C9_counterexample :
    fetchApps { endpoints := [healthyEndpoint], tasksErr := some "tasks: EOF",
                appsErr := some "apps: EOF" } = some "apps: EOF" ∧
    (some "apps: EOF" : Option String) ≠ some "tasks: EOF" := by decide

/-- C9 (amended): `fetchApps` fails immediately with the `EndpointsDown`
error when no configured endpoint is healthy — independently of the two
request outcomes, i.e. without issuing any request — and otherwise consumes
both outcomes and reports the apps error in preference, then the tasks
error. -/
theorem C9_fetch_error_precedence (e : FetchEnv) :
    (selectEndpoint e.endpoints = "" →
      fetchApps e = some "all endpoints are down" ∧
      ∀ te ae : Option String,
        fetchApps { e with tasksErr := te, appsErr := ae } =
          some "all endpoints are down") ∧
    (selectEndpoint e.endpoints ≠ "" →
      fetchApps e =
        match e.appsErr with
        | some err => some err
        | none => e.tasksErr) := by
  constructor
  · intro h
    constructor
    · simp [fetchApps, h]
    · intro te ae
      simp [fetchApps, h]
  · intro h
    simp only [fetchApps, if_neg h]
    cases e.appsErr with
    | some err => rfl
    | none => cases e.tasksErr with
      | some err => rfl
      | none => rfl

/-- C9 (witness): with one healthy endpoint, a failing tasks decoder and a
succeeding apps decoder, the tasks error is reported. -/
theorem C9_witness :
    fetchApps { endpoints := [healthyEndpoint], tasksErr := some "tasks: EOF",
                appsErr := none } = some "tasks: EOF" :=
  (C9_fetch_error_precedence
    { endpoints := [healthyEndpoint], tasksErr := some "tasks: EOF",
      appsErr := none }).2 (by decide)

/-- C3: a string appears in some port slot of the entry at `app.Id` iff some
task generates it — i.e. a task whose `appId` matches the app, which exposes
at least one port and which, when the app declares health checks, reports at
least one health result with every reported result alive — contributes it as
one of its `host:port` values; tasks with zero ports or a failed or missing
health result never place anything in any slot. -/
theorem C3_contribution_iff (app : MApp) (tasks : List MTask) (apps : List MApp)
    (m : List (String × App)) (s : String)
    (hmem : app ∈ apps) (hnd : (apps.map MApp.id).Nodup)
    (hm : syncApps tasks apps = some m) :
    (∃ A, lookupApp m app.id = some A ∧ ∃ slot ∈ A.tasks, s ∈ slot) ↔
    (∃ t ∈ tasks,
      (t.appId = app.id ∧ t.ports ≠ [] ∧
        (app.healthChecks ≠ [] →
          t.healthCheckResults ≠ [] ∧ ∀ h ∈ t.healthCheckResults, h.alive = true)) ∧
      s ∈ t.ports.map (hostPort t.host)) := by
  obtain ⟨acc, hacc, hlook⟩ := lookupApp_syncApps tasks apps m app hmem hnd hm
  have hiff := appJoin_mem app tasks none acc hacc s
  rw [hlook]
  rw [hiff]
  constructor
  · rintro (⟨a, ha, _⟩ | ⟨t, ht, hct, hs⟩)
    · exact absurd ha (by simp)
    · exact ⟨t, ht, (contributes_iff app t).mp hct, hs⟩
  · rintro ⟨t, ht, hct, hs⟩
    exact Or.inr ⟨t, ht, (contributes_iff app t).mpr hct, hs⟩

/-- C3 (witness): on the happy-path input, `"hostA:31001"` is in a slot of
`/web` iff a contributing task generates it. -/
theorem C3_witness :
    (∃ A, lookupApp [("/web", actualWebApp)] "/web" = some A ∧
      ∃ slot ∈ A.tasks, "hostA:31001" ∈ slot) ↔
    (∃ t ∈ [taskA, taskB],
      (t.appId = "/web" ∧ t.ports ≠ [] ∧
        (webApp.healthChecks ≠ [] →
          t.healthCheckResults ≠ [] ∧ ∀ h ∈ t.healthCheckResults, h.alive = true)) ∧
      "hostA:31001" ∈ t.ports.map (hostPort t.host)) :=
  C3_contribution_iff webApp [taskA, taskB] [webApp] [("/web", actualWebApp)]
    "hostA:31001" (by decide) (by decide) (by decide)

/-- C4 (amended): when every pair of contributing tasks of an app exposes the
same number of ports, all port slots of the app's entry have equal length
`≥ 1` and the slot count equals `len(task.Ports)` of every contributing
task. -/
theorem C4_slots_uniform (app : MApp) (tasks : List MTask) (apps : List MApp)
    (m : List (String × App)) (A : App)
    (hmem : app ∈ apps) (hnd : (apps.map MApp.id).Nodup)
    (hm : syncApps tasks apps = some m)
    (hA : lookupApp m app.id = some A)
    (hpre : ∀ t₁ ∈ tasks, ∀ t₂ ∈ tasks, contributes app t₁ = true →
      contributes app t₂ = true → t₁.ports.length = t₂.ports.length) :
    (∀ s₁ ∈ A.tasks, ∀ s₂ ∈ A.tasks, s₁.length = s₂.length) ∧
    (∀ sl ∈ A.tasks, 1 ≤ sl.length) ∧
    (∀ t ∈ tasks, contributes app t = true → A.tasks.length = t.ports.length) := by
  obtain ⟨acc, hacc, hlook⟩ := lookupApp_syncApps tasks apps m app hmem hnd hm
  rw [hlook] at hA
  subst hA
  rcases appJoin_none_char app tasks _ hacc with ⟨_, hnone⟩ | ⟨ft, hft, _, hb, _⟩
  · simp at hnone
  · have hftmem : ft ∈ tasks := List.mem_of_find?_eq_some hft
    have hftc : contributes app ft = true := List.find?_some hft
    have hports : ∀ t ∈ tasks, contributes app t = true →
        t.ports.length = ft.ports.length :=
      fun t ht hct => hpre t ht ft hftmem hct hftc
    obtain ⟨b, hb', hblen, c', hc1, hbsl⟩ :=
      appJoin_none_uniform app tasks _ ft hft hports hacc
    obtain rfl : b = A := by
      injection hb' with h'
      exact h'.symm
    refine ⟨?_, ?_, ?_⟩
    · intro s₁ hs₁ s₂ hs₂
      rw [hbsl s₁ hs₁, hbsl s₂ hs₂]
    · intro sl hsl
      rw [hbsl sl hsl]
      exact hc1
    · intro t ht hct
      rw [hblen, hports t ht hct]

/-- C4 (amended, witness): the happy-path `/web` entry has one slot of length
2 and the slot count equals each contributing task's port count (1). -/
theorem C4_witness :
    (∀ s₁ ∈ actualWebApp.tasks, ∀ s₂ ∈ actualWebApp.tasks, s₁.length = s₂.length) ∧
    (∀ sl ∈ actualWebApp.tasks, 1 ≤ sl.length) ∧
    (∀ t ∈ [taskA, taskB], contributes webApp t = true →
      actualWebApp.tasks.length = t.ports.length) :=
  C4_slots_uniform webApp [taskA, taskB] [webApp] [("/web", actualWebApp)]
    actualWebApp (by decide) (by decide) (by decide) (by decide) (by decide)

/-- C6: an app whose `frontends` label splits into more whitespace-separated
tokens than the first contributing task exposes ports gets exactly the single
`more frontends defined than ports exposed` error sentinel (no token is
parsed), while its task slots are populated from the contributing tasks as
usual. -/
theorem C6_more_frontends_sentinel (app : MApp) (tasks : List MTask)
    (apps : List MApp) (m : List (String × App)) (s : String)
    (hmem : app ∈ apps) (hnd : (apps.map MApp.id).Nodup)
    (hm : syncApps tasks apps = some m)
    (ft : MTask) (hft : tasks.find? (fun t => contributes app t) = some ft)
    (lbl : String) (hlbl : lookupLabel app.labels "frontends" = some lbl)
    (hcount : ft.ports.length < (splitWs lbl).length) :
    ∃ A, lookupApp m app.id = some A ∧
      A.frontends = [errMoreFrontends] ∧
      A.tasks.length = ft.ports.length ∧
      ((∃ slot ∈ A.tasks, s ∈ slot) ↔
        ∃ t ∈ tasks, contributes app t = true ∧ s ∈ t.ports.map (hostPort t.host)) := by
  obtain ⟨acc, hacc, hlook⟩ := lookupApp_syncApps tasks apps m app hmem hnd hm
  rcases appJoin_none_char app tasks _ hacc with ⟨hfind, _⟩ | ⟨ft', hft', b, hb, hfr, _, _, hlen⟩
  · rw [hft] at hfind; exact absurd hfind (by simp)
  · rw [hft] at hft'
    injection hft' with h'
    subst h'
    subst hb
    refine ⟨b, by rw [hlook], ?_, hlen, ?_⟩
    · rw [hfr, newApp_frontends_some app ft lbl hlbl, if_neg (by omega)]
    · have hiff := appJoin_mem app tasks none (some b) hacc s
      constructor
      · intro hs
        rcases hiff.mp ⟨b, rfl, hs⟩ with ⟨a, ha, _⟩ | h
        · exact absurd ha (by simp)
        · exact h
      · intro hs
        obtain ⟨b', hb', hsb⟩ := hiff.mpr (Or.inr hs)
        obtain rfl : b = b' := by injection hb'
        exact hsb

/-- C6 (witness): app `/w` with label `"a.com/http b.com/http"` and a single
one-port contributing task gets the sentinel while its slot holds the task. -/
theorem C6_witness :
    ∃ A, lookupApp [("/w",
        { tasks := [["h:8080"]], frontends := [errMoreFrontends],
          labels := [("frontends", "a.com/http b.com/http")], env := [] })] "/w" = some A ∧
      A.frontends = [errMoreFrontends] ∧
      A.tasks.length = 1 ∧
      ((∃ slot ∈ A.tasks, "h:8080" ∈ slot) ↔
        ∃ t ∈ [({ appId := "/w", healthCheckResults := [], host := "h",
                  ports := [8080] } : MTask)],
          contributes { id := "/w", labels := [("frontends", "a.com/http b.com/http")],
                        env := [], healthChecks := [] } t = true ∧
          "h:8080" ∈ t.ports.map (hostPort t.host)) :=
  C6_more_frontends_sentinel
    { id := "/w", labels := [("frontends", "a.com/http b.com/http")], env := [],
      healthChecks := [] }
    [{ appId := "/w", healthCheckResults := [], host := "h", ports := [8080] }]
    [{ id := "/w", labels := [("frontends", "a.com/http b.com/http")], env := [],
       healthChecks := [] }]
    [("/w", { tasks := [["h:8080"]], frontends := [errMoreFrontends],
              labels := [("frontends", "a.com/http b.com/http")], env := [] })]
    "h:8080" (by decide) (by decide) (by decide)
    { appId := "/w", healthCheckResults := [], host := "h", ports := [8080] }
    (by decide) "a.com/http b.com/http" (by decide) (by decide)

/-- C7: on the spec's malformed-frontend input the claimed result is wrong:
the first token `GOOD.com/http` is itself outside the grammar (uppercase and
`.` are not in `[0-9a-z-]`), so the sentinel names `GOOD.com/http`, not
`bogus`. -/
theorem C7_counterexample :
    syncApps [badLabelTask] [badLabelApp] = some [("/m", badLabelOut)] ∧
    badLabelOut.frontends = [errFrontend "GOOD.com/http"] ∧
    badLabelOut.frontends ≠
      [{ type := "error", data := ["frontend bogus not recognized"] }] := by decide

/-- C7 (amended): when the token count is within the port budget, the first
token that fails the frontend grammar replaces the app's entire frontend list
with exactly `[{type:"error", data:["frontend <token> not recognized"]}]` and
stops parsing; in particular `"GOOD.com/http bogus"` yields the sentinel for
`GOOD.com/http`. -/
theorem C7_first_malformed_token (app : MApp) (tasks : List MTask)
    (apps : List MApp) (m : List (String × App))
    (hmem : app ∈ apps) (hnd : (apps.map MApp.id).Nodup)
    (hm : syncApps tasks apps = some m)
    (ft : MTask) (hft : tasks.find? (fun t => contributes app t) = some ft)
    (lbl : String) (hlbl : lookupLabel app.labels "frontends" = some lbl)
    (hcount : (splitWs lbl).length ≤ ft.ports.length)
    (pre post : List String) (bad : String)
    (hsplit : splitWs lbl = pre ++ bad :: post)
    (hpre : ∀ f ∈ pre, frontendMatch f = true)
    (hbad : frontendMatch bad = false) :
    ∃ A, lookupApp m app.id = some A ∧ A.frontends = [errFrontend bad] := by
  obtain ⟨acc, hacc, hlook⟩ := lookupApp_syncApps tasks apps m app hmem hnd hm
  rcases appJoin_none_char app tasks _ hacc with ⟨hfind, _⟩ | ⟨ft', hft', b, hb, hfr, _, _, _⟩
  · rw [hft] at hfind; exact absurd hfind (by simp)
  · rw [hft] at hft'
    injection hft' with h'
    subst h'
    subst hb
    refine ⟨b, by rw [hlook], ?_⟩
    rw [hfr, newApp_frontends_some app ft lbl hlbl, if_pos hcount, hsplit]
    exact parseTokensAux_bad bad hbad pre post [] hpre

/-- C7 (amended, witness): the label `"GOOD.com/http bogus"` with a two-port
contributing task yields exactly the `GOOD.com/http` sentinel. -/
theorem C7_witness :
    ∃ A, lookupApp [("/m", badLabelOut)] "/m" = some A ∧
      A.frontends = [errFrontend "GOOD.com/http"] :=
  C7_first_malformed_token badLabelApp [badLabelTask] [badLabelApp]
    [("/m", badLabelOut)] (by decide) (by decide) (by decide)
    badLabelTask (by decide) "GOOD.com/http bogus" (by decide) (by decide)
    [] ["bogus"] "GOOD.com/http" (by decide) (by decide) (by decide)

/-- C1: the claim is false for the signal phase: when `nginx -s reload` fails
the rename has already happened, so the on-disk file holds the new contents
`"new"`, not its pre-attempt contents `"old"`. -/
theorem C1_counterexample :
    (reload { allOkEnv with reloadErr := true } st0).2 = RResult.errReload ∧
    (reload { allOkEnv with reloadErr := true } st0).1.nginxConfig = "new" ∧
    st0.nginxConfig = "old" ∧ ("new" : String) ≠ "old" := by decide

/-- C1 (amended): the file at `nginx_config` is replaced only after
`nginx -c <candidate> -t` exits 0, and a failure in the fetch, render,
validate or rename phase (or a `syncApps` panic) leaves it byte-identical to
its pre-attempt contents; a signal-phase failure happens after the rename, so
only a successful or signal-failed attempt can have changed the file, and
then to exactly the validated candidate bytes. -/
theorem C1_replace_only_after_valid (e : REnv) (s : RState) :
    ((reload e s).2 = RResult.errFetch ∨ (reload e s).2 = RResult.panicSync ∨
      (reload e s).2 = RResult.errParse ∨ (reload e s).2 = RResult.errExec ∨
      (reload e s).2 = RResult.errValidate ∨ (reload e s).2 = RResult.errRename →
      (reload e s).1.nginxConfig = s.nginxConfig) ∧
    ((reload e s).1.nginxConfig ≠ s.nginxConfig →
      e.validateErr = false ∧ (reload e s).1.nginxConfig = e.rendered ∧
      ((reload e s).2 = RResult.ok ∨ (reload e s).2 = RResult.errReload)) := by
  obtain ⟨tks, aps, fE, pE, xE, rnd, vE, rnE, rlE⟩ := e
  cases hsync : syncApps tks aps <;>
    cases fE <;> cases pE <;> cases xE <;> cases vE <;> cases rnE <;> cases rlE <;>
      refine ⟨fun h => ?_, fun h => ?_⟩ <;>
        simp_all [reload, writeConf]

/-- C1 (witness): on a validation failure the file is untouched. -/
theorem C1_witness :
    (reload { allOkEnv with validateErr := true } st0).1.nginxConfig =
      st0.nginxConfig :=
  (C1_replace_only_after_valid { allOkEnv with validateErr := true } st0).1
    (by decide)

/-- C2: the claim is false at the install/rename stage: with fetch, render and
validation all succeeding and only the rename failing, the stages before the
failure include validation, yet `LastConfigValid` is not advanced (it is
stamped only after `writeConf`, rename included, returns nil). -/
theorem C2_counterexample :
    (reload { allOkEnv with renameErr := true } st0).2 = RResult.errRename ∧
    { allOkEnv with renameErr := true }.validateErr = false ∧
    (reload { allOkEnv with renameErr := true } st0).1.lastUpdates =
      { lastSync := 1, lastConfigRendered := 2, lastConfigValid := 0,
        lastNginxReload := 0 } ∧
    st0.lastUpdates.lastConfigValid = 0 := by decide

/-- C2 (amended): given stamps no newer than the clock, a successful attempt
strictly advances all four timestamps, ordered
`lastSync < lastConfigRendered < lastConfigValid < lastNginxReload`; a
failure advances exactly the stamps of the stages completed before it, with
one exception: a rename (install) failure advances only `LastSync` and
`LastConfigRendered` — `LastConfigValid` is stamped only after the rename has
succeeded. -/
theorem C2_stamp_advancement (e : REnv) (s : RState)
    (hwf : s.lastUpdates.lastSync ≤ s.now ∧
      s.lastUpdates.lastConfigRendered ≤ s.now ∧
      s.lastUpdates.lastConfigValid ≤ s.now ∧
      s.lastUpdates.lastNginxReload ≤ s.now) :
    ((reload e s).2 = RResult.errFetch ∨ (reload e s).2 = RResult.panicSync →
      (reload e s).1.lastUpdates = s.lastUpdates) ∧
    ((reload e s).2 = RResult.errParse ∨ (reload e s).2 = RResult.errExec →
      s.lastUpdates.lastSync < (reload e s).1.lastUpdates.lastSync ∧
      (reload e s).1.lastUpdates.lastConfigRendered = s.lastUpdates.lastConfigRendered ∧
      (reload e s).1.lastUpdates.lastConfigValid = s.lastUpdates.lastConfigValid ∧
      (reload e s).1.lastUpdates.lastNginxReload = s.lastUpdates.lastNginxReload) ∧
    ((reload e s).2 = RResult.errValidate →
      s.lastUpdates.lastSync < (reload e s).1.lastUpdates.lastSync ∧
      s.lastUpdates.lastConfigRendered < (reload e s).1.lastUpdates.lastConfigRendered ∧
      (reload e s).1.lastUpdates.lastConfigValid = s.lastUpdates.lastConfigValid ∧
      (reload e s).1.lastUpdates.lastNginxReload = s.lastUpdates.lastNginxReload) ∧
    ((reload e s).2 = RResult.errRename →
      s.lastUpdates.lastSync < (reload e s).1.lastUpdates.lastSync ∧
      s.lastUpdates.lastConfigRendered < (reload e s).1.lastUpdates.lastConfigRendered ∧
      (reload e s).1.lastUpdates.lastConfigValid = s.lastUpdates.lastConfigValid ∧
      (reload e s).1.lastUpdates.lastNginxReload = s.lastUpdates.lastNginxReload) ∧
    ((reload e s).2 = RResult.errReload →
      s.lastUpdates.lastSync < (reload e s).1.lastUpdates.lastSync ∧
      s.lastUpdates.lastConfigRendered < (reload e s).1.lastUpdates.lastConfigRendered ∧
      s.lastUpdates.lastConfigValid < (reload e s).1.lastUpdates.lastConfigValid ∧
      (reload e s).1.lastUpdates.lastNginxReload = s.lastUpdates.lastNginxReload) ∧
    ((reload e s).2 = RResult.ok →
      s.lastUpdates.lastSync < (reload e s).1.lastUpdates.lastSync ∧
      s.lastUpdates.lastConfigRendered < (reload e s).1.lastUpdates.lastConfigRendered ∧
      s.lastUpdates.lastConfigValid < (reload e s).1.lastUpdates.lastConfigValid ∧
      s.lastUpdates.lastNginxReload < (reload e s).1.lastUpdates.lastNginxReload ∧
      (reload e s).1.lastUpdates.lastSync < (reload e s).1.lastUpdates.lastConfigRendered ∧
      (reload e s).1.lastUpdates.lastConfigRendered < (reload e s).1.lastUpdates.lastConfigValid ∧
      (reload e s).1.lastUpdates.lastConfigValid < (reload e s).1.lastUpdates.lastNginxReload) := by
  obtain ⟨hw1, hw2, hw3, hw4⟩ := hwf
  obtain ⟨tks, aps, fE, pE, xE, rnd, vE, rnE, rlE⟩ := e
  cases hsync : syncApps tks aps <;>
    cases fE <;> cases pE <;> cases xE <;> cases vE <;> cases rnE <;> cases rlE <;>
      refine ⟨fun h => ?_, fun h => ?_, fun h => ?_, fun h => ?_, fun h => ?_,
        fun h => ?_⟩ <;>
        simp_all [reload, writeConf] <;> omega

/-- C2 (amended, witness): on the rename-failure input, `LastSync` and
`LastConfigRendered` advance while `LastConfigValid` and `LastNginxReload`
stay. -/
theorem C2_witness :
    st0.lastUpdates.lastSync <
      (reload { allOkEnv with renameErr := true } st0).1.lastUpdates.lastSync ∧
    st0.lastUpdates.lastConfigRendered <
      (reload { allOkEnv with renameErr := true } st0).1.lastUpdates.lastConfigRendered ∧
    (reload { allOkEnv with renameErr := true } st0).1.lastUpdates.lastConfigValid =
      st0.lastUpdates.lastConfigValid ∧
    (reload { allOkEnv with renameErr := true } st0).1.lastUpdates.lastNginxReload =
      st0.lastUpdates.lastNginxReload :=
  (C2_stamp_advancement { allOkEnv with renameErr := true } st0
    (by decide)).2.2.2.1 (by decide)

end Nixy

